import Mathlib

/-!
Shallow embedding of the TAPA source-to-source task pass
(`src/backend/tapa/task.cpp`) and of the arithmetic helpers in
`src/src/tapa/util.h`, together with theorems settling the frozen claims
about the task-graph extraction, validation and interface synthesis.

The embedding models `Visitor::ProcessUpperLevelTask`: port derivation from
the parameter list, stream-declaration discovery, the per-invocation /
per-replica argument loop (`get_name`, `register_arg`, `register_consumer`,
`register_producer`), the end-of-task fifo validation loop, and
`Visitor::GetFrtInterface`'s buffer-direction selection.  JSON objects
(`nlohmann::json`) are modelled as association lists keyed by `String`;
an object member holds at most one value per key, and assignment
overwrites, exactly as in the source.
-/

namespace TapaSpec

/-- The parameter/argument type categories recognised by `IsTapaType` &c.
(the classifier itself lives in headers outside `src/`; the code in
`task.cpp` consumes only the classification, which is what this type
records).  `stream`/`streams` are the locally declared channel types,
`istream(s)`/`ostream(s)` the access-side parameter types. -/
inductive TapaType where
  | mmap
  | asyncMmap
  | mmaps (len : Nat)
  | asyncMmaps (len : Nat)
  | istream
  | ostream
  | istreams (len : Nat)
  | ostreams (len : Nat)
  | stream
  | streams (len : Nat)
  | seqType
  | scalar
  deriving DecidableEq

/-- Modelled from the spec: the interface-facing array element naming scheme
`base[index]` (`ArrayNameAt` is declared in a header outside `src/`; the
port-derivation loop in `task.cpp` line 376 spells the same scheme inline). -/
def arrayNameAt (name : String) (i : Nat) : String :=
  name ++ "[" ++ toString i ++ "]"

/-- The diagnostics emitted by `ProcessUpperLevelTask`, with the identifiers
and substituted strings of the corresponding `getCustomDiagID` call sites. -/
inductive Diag where
  | unexpectedInvocation (className : String)
  | vectorIndexWraparound (iVec : Nat) (argName : String) (slot : Nat)
  | consumedMoreThanOnce (fifo : String)
  | producedMoreThanOnce (fifo : String)
  | unexpectedArgument (iVec : Nat) (argIndex : Nat)
  | unusedStream (fifo : String)
  | consumedNotProducedStream (fifo : String)
  | producedNotConsumedStream (fifo : String)
  deriving DecidableEq

/-- Severity classification: `vectorIndexWraparound` is a `Remark` and
`unusedStream` a `Warning` in the source; everything else is an `Error`. -/
def Diag.isError : Diag → Bool
  | .vectorIndexWraparound _ _ _ => false
  | .unusedStream _ => false
  | _ => true

/-- The channel name substituted into a diagnostic, when it has one. -/
def Diag.fifoName : Diag → Option String
  | .consumedMoreThanOnce f => some f
  | .producedMoreThanOnce f => some f
  | .unusedStream f => some f
  | .consumedNotProducedStream f => some f
  | .producedNotConsumedStream f => some f
  | _ => none

def Diag.isWraparound : Diag → Bool
  | .vectorIndexWraparound _ _ _ => true
  | _ => false

/-- One `{"cat": ..., "arg": ...}` member of an instance's `args` object. -/
structure ArgEntry where
  cat : String
  arg : String
  deriving DecidableEq

/-- One element of a task's instance list in the metadata document:
`{step, name?, args}`. -/
structure TaskInstance where
  step : Int
  name : Option String := none
  args : List (String × ArgEntry) := []
  deriving DecidableEq

/-- One member of the `fifos` object: `{depth?, produced_by?, consumed_by?}`.
Each edge is a single json member, so a channel holds at most one
`produced_by` and at most one `consumed_by`; assignment overwrites. -/
structure FifoEntry where
  depth : Option Nat := none
  produced_by : Option (String × Nat) := none
  consumed_by : Option (String × Nat) := none
  deriving DecidableEq

/-- One element of the `ports` list: `{name, cat, width, type}`. -/
structure Port where
  name : String
  cat : String
  width : Nat
  type : String
  deriving DecidableEq

/-- The metadata document accumulated for one upper-level task. -/
structure Metadata where
  ports : List Port := []
  fifos : List (String × FifoEntry) := []
  tasks : List (String × List TaskInstance) := []
  deriving DecidableEq

/-! ### Association-list operations for the json objects -/

def lookupFifo : List (String × FifoEntry) → String → Option FifoEntry
  | [], _ => none
  | (k, v) :: rest, key => if k == key then some v else lookupFifo rest key

def setFifo : List (String × FifoEntry) → String → FifoEntry → List (String × FifoEntry)
  | [], key, v => [(key, v)]
  | (k, w) :: rest, key, v =>
    if k == key then (k, v) :: rest else (k, w) :: setFifo rest key v

def lookupTasks : List (String × List TaskInstance) → String → Option (List TaskInstance)
  | [], _ => none
  | (k, v) :: rest, key => if k == key then some v else lookupTasks rest key

def setTasks : List (String × List TaskInstance) → String → List TaskInstance →
    List (String × List TaskInstance)
  | [], key, v => [(key, v)]
  | (k, w) :: rest, key, v =>
    if k == key then (k, v) :: rest else (k, w) :: setTasks rest key v

def lookupArg : List (String × ArgEntry) → String → Option ArgEntry
  | [], _ => none
  | (k, v) :: rest, key => if k == key then some v else lookupArg rest key

def setArg : List (String × ArgEntry) → String → ArgEntry → List (String × ArgEntry)
  | [], key, v => [(key, v)]
  | (k, w) :: rest, key, v =>
    if k == key then (k, v) :: rest else (k, w) :: setArg rest key v

/-- Apply `f` to the last element of a list (`*list.rbegin()` in the source). -/
def modifyLast (f : TaskInstance → TaskInstance) : List TaskInstance → List TaskInstance
  | [] => []
  | [x] => [f x]
  | x :: y :: rest => x :: modifyLast f (y :: rest)

/-- `metadata["fifos"][key]` read access: `operator[]` default-creates an
empty (null) member when absent, on which `contains` is false. -/
def Metadata.fifoGet (md : Metadata) (key : String) : FifoEntry :=
  (lookupFifo md.fifos key).getD {}

def Metadata.fifoSet (md : Metadata) (key : String) (e : FifoEntry) : Metadata :=
  { md with fifos := setFifo md.fifos key e }

/-- `metadata["tasks"][key]` as a list of instances (empty when absent). -/
def Metadata.taskList (md : Metadata) (key : String) : List TaskInstance :=
  (lookupTasks md.tasks key).getD []

/-- `metadata["tasks"][key].push_back inst`. -/
def Metadata.tasksPush (md : Metadata) (key : String) (inst : TaskInstance) : Metadata :=
  { md with tasks := setTasks md.tasks key (md.taskList key ++ [inst]) }

/-- `(*metadata["tasks"][key].rbegin()) := f ...`. -/
def Metadata.tasksModifyLast (md : Metadata) (key : String)
    (f : TaskInstance → TaskInstance) : Metadata :=
  { md with tasks := setTasks md.tasks key (modifyLast f (md.taskList key)) }

/-! ### Invocation arguments (`invoke->getArg(i)`) -/

/-- The syntactic shape of an invocation argument, as the source
distinguishes them: a `DeclRefExpr` (with the referenced variable's
classified type), a `CXXOperatorCallExpr` indexing a fixed-size array, a
`StringLiteral`, or anything else (recorded with its statement class name). -/
inductive ArgShape where
  | declRef (name : String) (ty : TapaType)
  | opCall (arrayName : String) (index : Nat)
  | strLit (value : String)
  | otherExpr (className : String)
  deriving DecidableEq

/-- One invocation argument: its shape, the result of `EvaluateAsInt`
(the `uint64_t` value, when compile-time evaluable), and whether
`IsTapaType(arg, "seq")` holds for its type. -/
structure InvokeArg where
  shape : ArgShape
  evalAsInt : Option Nat := none
  isSeq : Bool := false
  deriving DecidableEq

/-- The `arg_name` computed at lines 481-497: a `DeclRefExpr` contributes the
variable name, an array indexing expression `base[constant-index]`, and a
compile-time integer overrides either with the `64'd`-prefixed literal. -/
def InvokeArg.argName (a : InvokeArg) : String :=
  let n := match a.shape with
    | .declRef n _ => n
    | .opCall base idx => arrayNameAt base idx
    | _ => ""
  match a.evalAsInt with
  | some v => "64'd" ++ toString v
  | none => n

/-- The recognition test `decl_ref || op_call || arg_is_int || arg_is_seq`. -/
def InvokeArg.recognized (a : InvokeArg) : Bool :=
  (match a.shape with
   | .declRef _ _ => true
   | .opCall _ _ => true
   | _ => false)
  || a.evalAsInt.isSome || a.isSeq

/-- The array-typed actual-argument types matched by
`IsTapaType(decl_ref, "(async_mmaps|streams)")` in `get_name`, with their
compile-time length (template argument 1). -/
def arrayArgLength : TapaType → Option Nat
  | .streams len => some len
  | .asyncMmaps len => some len
  | _ => none

/-- `get_name` (lines 444-469): under a vectorized invocation, an
array-typed actual argument is resolved to element `i_vec mod length`, with
a non-fatal `Remark` diagnostic when `i_vec >= length`. -/
def getName (isVec : Bool) (a : InvokeArg) (name : String) (i : Nat) :
    String × List Diag :=
  if isVec then
    match a.shape with
    | .declRef refName ty =>
      match arrayArgLength ty with
      | some length =>
        (arrayNameAt name (i % length),
         if length ≤ i then [.vectorIndexWraparound i refName (i % length)] else [])
      | none => (name, [])
    | _ => (name, [])
  else (name, [])

/-- One parsed `invoke` call site: the compile-time execution step, whether
the last template argument signals an explicit instance name, whether a
vector length is present and its value, and the runtime argument list. -/
structure InvokeInfo where
  step : Int
  hasName : Bool := false
  isVec : Bool := false
  vecLength : Nat := 1
  args : List InvokeArg

/-- Callee resolution (`decl_ref->getDecl()->getAsFunction()`), modelled as
an environment from function name to its classified parameter list. -/
abbrev TaskEnv := String → Option (List (String × TapaType))

/-- The mutable state threaded through one invocation's argument loop:
`task_name`, the resolved callee (`task`), the metadata document and the
accumulated diagnostics. -/
structure InvokeState where
  taskName : String := ""
  callee : Option (List (String × TapaType)) := none
  md : Metadata
  diags : List Diag

/-- `task->getParamDecl(has_name ? i - 2 : i - 1)`: `i` is unsigned in the
source, so positions below the first parameter slot underflow and index out
of range (undefined behaviour); the model returns `none` there. -/
def paramFor (inv : InvokeInfo) (params : List (String × TapaType)) (i : Nat) :
    Option (String × TapaType) :=
  if inv.hasName then
    if 2 ≤ i then params.get? (i - 2) else none
  else
    if 1 ≤ i then params.get? (i - 1) else none

/-- `register_arg` (lines 509-515): store `{"cat": cat, "arg": arg}` under
`port` in the args object of the most recently created instance. -/
def registerArg (s : InvokeState) (cat arg port : String) : InvokeState :=
  { s with
    md := s.md.tasksModifyLast s.taskName
      (fun inst => { inst with args := setArg inst.args port ⟨cat, arg⟩ }) }

/-- `register_consumer` (lines 518-534): error if the channel already has a
`consumed_by` member, then (either way) overwrite it with the current
`(task_name, ordinal)` where ordinal is the index of the newest instance. -/
def registerConsumer (s : InvokeState) (arg : String) : InvokeState :=
  let entry := s.md.fifoGet arg
  let diags :=
    if entry.consumed_by.isSome then s.diags ++ [.consumedMoreThanOnce arg]
    else s.diags
  { s with
    md := s.md.fifoSet arg
      { entry with consumed_by := some (s.taskName, (s.md.taskList s.taskName).length - 1) },
    diags := diags }

/-- `register_producer` (lines 535-551), symmetric to `register_consumer`. -/
def registerProducer (s : InvokeState) (arg : String) : InvokeState :=
  let entry := s.md.fifoGet arg
  let diags :=
    if entry.produced_by.isSome then s.diags ++ [.producedMoreThanOnce arg]
    else s.diags
  { s with
    md := s.md.fifoSet arg
      { entry with produced_by := some (s.taskName, (s.md.taskList s.taskName).length - 1) },
    diags := diags }

/-- The body of the argument loop (lines 471-608) for argument `a` at
position `i` of replica `iVec`.  Position 0 names the callee and creates the
instance; later positions are routed by the callee parameter's category;
a string literal at position 1 sets the display name when `has_name`;
anything unrecognised reports `unexpected argument`. -/
def processInvokeArg (env : TaskEnv) (inv : InvokeInfo) (iVec : Nat) (i : Nat)
    (a : InvokeArg) (s : InvokeState) : InvokeState :=
  if a.recognized then
    let argName := a.argName
    if i == 0 then
      let taskName := argName
      let md := s.md.tasksPush taskName { step := inv.step }
      let callee :=
        match a.shape with
        | .declRef n _ => env n
        | _ => none
      { s with taskName := taskName, md := md, callee := callee }
    else
      match s.callee with
      | none => s
      | some params =>
        match paramFor inv params i with
        | none => s
        | some (paramName, paramTy) =>
          match paramTy with
          | .mmap =>
            let r := getName inv.isVec a argName iVec
            registerArg { s with diags := s.diags ++ r.2 } "mmap" r.1 paramName
          | .asyncMmap =>
            let r := getName inv.isVec a argName iVec
            registerArg { s with diags := s.diags ++ r.2 } "async_mmap" r.1 paramName
          | .istream =>
            let r := getName inv.isVec a argName iVec
            let s := registerConsumer { s with diags := s.diags ++ r.2 } r.1
            registerArg s "istream" r.1 paramName
          | .ostream =>
            let r := getName inv.isVec a argName iVec
            let s := registerProducer { s with diags := s.diags ++ r.2 } r.1
            registerArg s "ostream" r.1 paramName
          | .istreams len =>
            (List.range len).foldl
              (fun s j =>
                let arg := arrayNameAt argName j
                let s := registerConsumer s arg
                registerArg s "istream" arg (arrayNameAt paramName j)) s
          | .ostreams len =>
            (List.range len).foldl
              (fun s j =>
                let arg := arrayNameAt argName j
                let s := registerProducer s arg
                registerArg s "ostream" arg (arrayNameAt paramName j)) s
          | _ =>
            if a.isSeq then
              registerArg s "scalar" ("64'd" ++ toString iVec) paramName
            else
              registerArg s "scalar" argName paramName
  else
    match a.shape with
    | .strLit str =>
      if i == 1 && inv.hasName then
        { s with
          md := s.md.tasksModifyLast s.taskName
            (fun inst => { inst with name := some str }) }
      else
        { s with diags := s.diags ++ [.unexpectedArgument iVec i] }
    | _ => { s with diags := s.diags ++ [.unexpectedArgument iVec i] }

/-- The inner `for (unsigned i = 0; i < invoke->getNumArgs(); ++i)` loop,
started at position `i`. -/
def processArgsFrom (env : TaskEnv) (inv : InvokeInfo) (iVec : Nat) :
    Nat → List InvokeArg → InvokeState → InvokeState
  | _, [], s => s
  | i, a :: rest, s =>
    processArgsFrom env inv iVec (i + 1) rest (processInvokeArg env inv iVec i a s)

/-- The `for (uint64_t i_vec = 0; i_vec < vec_length; ++i_vec)` loop of one
invocation. -/
def processInvoke (env : TaskEnv) (inv : InvokeInfo) (s : InvokeState) : InvokeState :=
  (List.range inv.vecLength).foldl
    (fun s iVec => processArgsFrom env inv iVec 0 inv.args s) s

/-- All invocations of the task body, in order; `task_name` and `task` are
fresh for each invocation. -/
def processInvokes (env : TaskEnv) (invokes : List InvokeInfo)
    (md : Metadata) (diags : List Diag) : Metadata × List Diag :=
  invokes.foldl
    (fun acc inv =>
      let s := processInvoke env inv { md := acc.1, diags := acc.2 }
      (s.md, s.diags))
    (md, diags)

/-! ### Port derivation (lines 360-387) -/

/-- A task parameter as the pass sees it: name, classified type, and the
width/type strings obtained from the front end (`getTypeInfo`,
`GetMmapElemType`, `getAsString`). -/
structure ParamInfo where
  name : String
  ty : TapaType
  width : Nat := 0
  elemType : String := ""
  typeName : String := ""

/-- `IsStreamInterface`: an `istream(s)`/`ostream(s)` parameter. -/
def isStreamInterface : TapaType → Bool
  | .istream => true
  | .ostream => true
  | .istreams _ => true
  | .ostreams _ => true
  | _ => false

/-- The `ports` derivation loop: one mmap entry per mmap (per element for
mmap arrays), no entry for stream interfaces, and a scalar entry otherwise. -/
def derivePorts (params : List ParamInfo) : List Port :=
  params.foldl
    (fun ports p =>
      match p.ty with
      | .mmap => ports ++ [⟨p.name, "mmap", p.width, p.elemType ++ "*"⟩]
      | .asyncMmap => ports ++ [⟨p.name, "async_mmap", p.width, p.elemType ++ "*"⟩]
      | .mmaps len =>
        ports ++ (List.range len).map
          (fun i => ⟨p.name ++ "[" ++ toString i ++ "]", "mmap", p.width, p.elemType ++ "*"⟩)
      | .asyncMmaps len =>
        ports ++ (List.range len).map
          (fun i => ⟨p.name ++ "[" ++ toString i ++ "]", "async_mmap", p.width, p.elemType ++ "*"⟩)
      | _ =>
        if isStreamInterface p.ty then ports
        else ports ++ [⟨p.name, "scalar", p.width, p.typeName⟩])
    []

/-! ### Stream declarations (lines 389-413) -/

/-- A channel declaration discovered in the task body: a `tapa::stream`
(`arrayLength = none`) or one `tapa::streams` array declaration. -/
structure StreamDecl where
  name : String
  depth : Nat
  arrayLength : Option Nat := none

/-- Register the declared channels' depths in the fifos object (one entry
per array element for `streams`). -/
def declareFifos (decls : List StreamDecl) (md : Metadata) : Metadata :=
  decls.foldl
    (fun md d =>
      match d.arrayLength with
      | none => md.fifoSet d.name { md.fifoGet d.name with depth := some d.depth }
      | some len =>
        (List.range len).foldl
          (fun md i =>
            let varName := arrayNameAt d.name i
            md.fifoSet varName { md.fifoGet varName with depth := some d.depth })
          md)
    md

/-- The keys of the `fifo_decls` map built alongside the depth entries. -/
def streamDeclNames (decls : List StreamDecl) : List String :=
  decls.foldl
    (fun ns d =>
      match d.arrayLength with
      | none => ns ++ [d.name]
      | some len => ns ++ (List.range len).map (arrayNameAt d.name))
    []

/-! ### End-of-task validation (lines 612-645) -/

/-- The body of the validation loop for one fifos entry: an entry with
neither edge is reported as an unused stream (at its declaration, which the
source looks up and dereferences here) and erased; a kept entry that is
declared locally and has exactly one edge is reported as a dangling stream.
Returns whether the entry is kept, plus the diagnostics. -/
def validateFifoEntry (fifoDecls : List String) (name : String) (e : FifoEntry) :
    Bool × List Diag :=
  let is_consumed := e.consumed_by.isSome
  let is_produced := e.produced_by.isSome
  if !is_consumed && !is_produced then
    (false, [.unusedStream name])
  else
    (true,
     if fifoDecls.contains name && is_consumed != is_produced then
       [if is_consumed then .consumedNotProducedStream name
        else .producedNotConsumedStream name]
     else [])

/-- The validation loop over the whole fifos object. -/
def validateFifos (fifoDecls : List String) :
    List (String × FifoEntry) → List (String × FifoEntry) × List Diag
  | [] => ([], [])
  | (n, e) :: rest =>
    let r := validateFifoEntry fifoDecls n e
    let rr := validateFifos fifoDecls rest
    ((if r.1 then [(n, e)] else []) ++ rr.1, r.2 ++ rr.2)

/-- `Visitor::ProcessUpperLevelTask`, restricted to the metadata/diagnostic
computation (the body-rewriting side effects produce text only): derive the
ports, record the declared channels, process every invocation, then validate
the fifos object. -/
def processUpperLevelTask (env : TaskEnv) (params : List ParamInfo)
    (decls : List StreamDecl) (invokes : List InvokeInfo) : Metadata × List Diag :=
  let md0 : Metadata := { ports := derivePorts params, fifos := [], tasks := [] }
  let md1 := declareFifos decls md0
  let r1 := processInvokes env invokes md1 []
  let r2 := validateFifos (streamDeclNames decls) r1.1.fifos
  ({ r1.1 with fifos := r2.1 }, r1.2 ++ r2.2)

/-- Modelled from the spec: the driver that exports the metadata document is
outside `src/` (only the pass that fills it is present); per the spec,
"the pass must not emit a metadata document or rewritten source for a task
that failed validation", so a task's document is finalized only when the
task produced no error diagnostics. -/
def finalizeMetadata (md : Metadata) (diags : List Diag) : Option Metadata :=
  if diags.any Diag.isError then none else some md

/-! ### Host glue emitter (`Visitor::GetFrtInterface`, lines 720-755) -/

/-- The buffer access-mode selection for an mmap/async-mmap parameter:
`write_device` is hard-coded `true` and `read_device` is the negated
const-qualification of the element type. -/
def frtDirection (elemTypeIsConst : Bool) : String :=
  let write_device := true
  let read_device := !elemTypeIsConst
  if write_device then (if read_device then "ReadWrite" else "WriteOnly")
  else "ReadOnly"

/-! ### `round_up_div` / `round_up` (`src/src/tapa/util.h`, lines 50-58) -/

/-- `2^64`, the modulus of `uint64_t` arithmetic. -/
def U64 : Nat := 2 ^ 64

/-- Truncation to `uint64_t`. -/
def u64 (x : Nat) : Nat := x % U64

/-- `round_up_div<N>(i) = (i - 1) / N + 1` in `uint64_t` arithmetic
(the subtraction wraps at `i = 0`). -/
def round_up_div (N i : Nat) : Nat :=
  u64 (u64 (i + U64 - 1) / N + 1)

/-- `round_up<N>(i) = ((i - 1) / N + 1) * N` in `uint64_t` arithmetic. -/
def round_up (N i : Nat) : Nat :=
  u64 (u64 (u64 (i + U64 - 1) / N + 1) * N)

/-! ### Concrete scenarios used by the claim theorems and witnesses -/

/-- A callee `Leaf(istream q)`. -/
def c1Env : TaskEnv := fun n => if n == "Leaf" then some [("q", TapaType.istream)] else none

/-- The upper-level task's own stream parameter `p` passed to `Leaf`'s
input-stream parameter. -/
def c1Invoke : InvokeInfo :=
  { step := 0,
    args := [⟨.declRef "Leaf" .scalar, none, false⟩, ⟨.declRef "p" .istream, none, false⟩] }

/-- Callees `P(ostream o)` and `C(istream i)` for a fully connected task. -/
def c1wEnv : TaskEnv := fun n =>
  if n == "P" then some [("o", TapaType.ostream)]
  else if n == "C" then some [("i", TapaType.istream)]
  else none

def c1wInvokes : List InvokeInfo :=
  [{ step := 0, args := [⟨.declRef "P" .scalar, none, false⟩, ⟨.declRef "c" .stream, none, false⟩] },
   { step := 0, args := [⟨.declRef "C" .scalar, none, false⟩, ⟨.declRef "c" .stream, none, false⟩] }]

/-- A callee `Producer(ostream out)`. -/
def c2Env : TaskEnv := fun n => if n == "Producer" then some [("out", TapaType.ostream)] else none

/-- An invocation binding declared channel `c` to `Producer`'s
output-stream parameter. -/
def c2Invoke (c : String) : InvokeInfo :=
  { step := 0,
    args := [⟨.declRef "Producer" .scalar, none, false⟩, ⟨.declRef c .stream, none, false⟩] }

/-- A callee `T()` with no parameters. -/
def c3Env : TaskEnv := fun n => if n == "T" then some [] else none

/-- Explicit naming enabled; string literals at position 1 (right after the
callee) and at the last position. -/
def c3Invoke : InvokeInfo :=
  { step := 0, hasName := true,
    args := [⟨.declRef "T" .scalar, none, false⟩, ⟨.strLit "first", none, false⟩,
             ⟨.strLit "last", none, false⟩] }

/-- A callee `A(async_mmap m)`. -/
def c4Env : TaskEnv := fun n => if n == "A" then some [("m", TapaType.asyncMmap)] else none

/-- A vectorized invocation of `A` with vector length `N` whose actual
argument is an `async_mmaps` array of length `M`. -/
def c4Invoke (N M : Nat) : InvokeInfo :=
  { step := 0, isVec := true, vecLength := N,
    args := [⟨.declRef "A" .scalar, none, false⟩,
             ⟨.declRef "x" (.asyncMmaps M), none, false⟩] }

/-- The instance produced for replica `j` of `c4Invoke`. -/
def c4Inst (M j : Nat) : TaskInstance :=
  { step := 0, args := [("m", ⟨"async_mmap", arrayNameAt "x" (j % M)⟩)] }

/-- The wraparound remarks accumulated by the first `n` replicas of
`c4Invoke _ M`. -/
def c4Diags (M n : Nat) : List Diag :=
  (List.range n).filterMap
    (fun j => if M ≤ j then some (Diag.vectorIndexWraparound j "x" (j % M)) else none)

/-- The invocation-loop state after the first `n` replicas of `c4Invoke`. -/
def c4State (M n : Nat) : InvokeState :=
  { taskName := if n = 0 then "" else "A",
    callee := if n = 0 then none else some [("m", TapaType.asyncMmap)],
    md := { ports := [], fifos := [],
            tasks := if n = 0 then [] else [("A", (List.range n).map (c4Inst M))] },
    diags := c4Diags M n }

/-- A callee `C(istream q)` for the concrete `N = 5`, `M = 3` wraparound
scenario. -/
def c4sEnv : TaskEnv := fun n => if n == "C" then some [("q", TapaType.istream)] else none

def c4sInvoke : InvokeInfo :=
  { step := 0, isVec := true, vecLength := 5,
    args := [⟨.declRef "C" .scalar, none, false⟩, ⟨.declRef "x" (.streams 3), none, false⟩] }

/-- The argument entry recorded for a simple (non-array) actual argument
aligned to a parameter of category `pt`, for replica `iVec`: only a
`tapa::seq` argument reaching the scalar fallthrough depends on the replica
index. -/
def c5Entry (iVec : Nat) (a : InvokeArg) (pt : TapaType) : ArgEntry :=
  match pt with
  | .mmap => ⟨"mmap", a.argName⟩
  | .asyncMmap => ⟨"async_mmap", a.argName⟩
  | .istream => ⟨"istream", a.argName⟩
  | .ostream => ⟨"ostream", a.argName⟩
  | _ => if a.isSeq then ⟨"scalar", "64'd" ++ toString iVec⟩ else ⟨"scalar", a.argName⟩

/-- Stream-array parameter categories (these are expanded to one binding
per slot and are outside the simple-argument fragment of `c5_theorem`). -/
def isStreamArrayParam : TapaType → Bool
  | .istreams _ => true
  | .ostreams _ => true
  | _ => false

/-- The actual argument is not an array-typed variable, so `get_name`
returns its name unchanged. -/
def actualArrayFree (a : InvokeArg) : Bool :=
  match a.shape with
  | .declRef _ ty => (arrayArgLength ty).isNone
  | _ => true

/-- Position `i` holds a simple argument: either unrecognised (it yields a
diagnostic, or fills the name slot), or recognised with a non-array actual
argument and a non-array parameter. -/
def c5SimpleAt (inv : InvokeInfo) (params : List (String × TapaType)) (i : Nat)
    (a : InvokeArg) : Bool :=
  !a.recognized ||
    (actualArrayFree a &&
      match paramFor inv params i with
      | some p => !isStreamArrayParam p.2
      | none => true)

/-- All of `rest` is simple, positions starting at `i`. -/
def c5Check (inv : InvokeInfo) (params : List (String × TapaType)) :
    Nat → List InvokeArg → Bool
  | _, [] => true
  | i, a :: rest => c5SimpleAt inv params i a && c5Check inv params (i + 1) rest

/-- The effect of one simple argument at position `i` on the instance under
construction (for replica `j`). -/
def c5ExtendOne (inv : InvokeInfo) (params : List (String × TapaType))
    (j i : Nat) (a : InvokeArg) (inst : TaskInstance) : TaskInstance :=
  if a.recognized then
    match paramFor inv params i with
    | some p => { inst with args := setArg inst.args p.1 (c5Entry j a p.2) }
    | none => inst
  else
    match a.shape with
    | .strLit str =>
      if i == 1 && inv.hasName then { inst with name := some str } else inst
    | _ => inst

/-- The effect of the whole simple tail, positions starting at `i`. -/
def c5ExtendInst (inv : InvokeInfo) (params : List (String × TapaType)) (j : Nat) :
    Nat → List InvokeArg → TaskInstance → TaskInstance
  | _, [], inst => inst
  | i, a :: rest, inst =>
    c5ExtendInst inv params j (i + 1) rest (c5ExtendOne inv params j i a inst)

/-- The instance created by replica `j` of an invocation with simple
argument tail `rest`. -/
def c5ReplicaInst (inv : InvokeInfo) (params : List (String × TapaType))
    (j : Nat) (rest : List InvokeArg) : TaskInstance :=
  c5ExtendInst inv params j 1 rest { step := inv.step }

/-- A callee `W(int x, int s)` used to witness the replica-expansion
theorem with a compile-time integer and a `tapa::seq` argument. -/
def c5wEnv : TaskEnv :=
  fun n => if n == "W" then some [("x", TapaType.scalar), ("s", TapaType.scalar)] else none

def c5wInvoke : InvokeInfo :=
  { step := 0, isVec := true, vecLength := 2,
    args := [⟨.declRef "W" .scalar, none, false⟩,
             ⟨.otherExpr "IntegerLiteral", some 7, false⟩,
             ⟨.otherExpr "CXXConstructExpr", none, true⟩] }

/-- Top-level parameter list `(mmap<float> a, int n, ostream<int> o)`. -/
def c7Params : List ParamInfo :=
  [⟨"a", .mmap, 32, "float", "tapa::mmap<float>"⟩,
   ⟨"n", .scalar, 32, "", "int"⟩,
   ⟨"o", .ostream, 0, "int", "tapa::ostream<int>"⟩]

/-- A callee `K(ostream out)` that connects `o`. -/
def c7Env : TaskEnv := fun n => if n == "K" then some [("out", TapaType.ostream)] else none

def c7Invoke : InvokeInfo :=
  { step := 0,
    args := [⟨.declRef "K" .scalar, none, false⟩, ⟨.declRef "o" .ostream, none, false⟩] }

/-- A fully connected declared channel `a` used to witness the validation
theorem. -/
def c6wEntry : FifoEntry :=
  { depth := some 2, produced_by := some ("P", 0), consumed_by := some ("C", 0) }

def c6wDecls : List String := ["a"]

def c6wFifos : List (String × FifoEntry) := [("a", c6wEntry)]

/-- A state whose fifos object already has both edges of channel `c` set
and whose current task has two instances. -/
def c9State : InvokeState :=
  { taskName := "N", callee := none,
    md := { ports := [],
            fifos := [("c", ⟨some 4, some ("P", 0), some ("P", 0)⟩)],
            tasks := [("N", [{ step := 0 }, { step := 0 }])] },
    diags := [] }

end TapaSpec

namespace TapaSpec

/-! ## Helper lemmas -/

theorem lookupFifo_setFifo_self (l : List (String × FifoEntry)) (k : String) (e : FifoEntry) :
    lookupFifo (setFifo l k e) k = some e := by
  induction l with
  | nil => simp [setFifo, lookupFifo]
  | cons hd tl ih =>
    obtain ⟨k', v'⟩ := hd
    by_cases h : k' == k
    · simp [setFifo, lookupFifo, h]
    · simp [setFifo, lookupFifo, h, ih]

theorem Metadata.fifoGet_fifoSet (md : Metadata) (k : String) (e : FifoEntry) :
    (md.fifoSet k e).fifoGet k = e := by
  simp [Metadata.fifoGet, Metadata.fifoSet, lookupFifo_setFifo_self]

theorem modifyLast_cons (f : TaskInstance → TaskInstance) (a : TaskInstance)
    (l : List TaskInstance) (h : l ≠ []) : modifyLast f (a :: l) = a :: modifyLast f l := by
  cases l with
  | nil => exact absurd rfl h
  | cons b l' => rfl

theorem modifyLast_ne_nil (f : TaskInstance → TaskInstance) (a : TaskInstance)
    (l : List TaskInstance) : modifyLast f (a :: l) ≠ [] := by
  cases l with
  | nil => simp [modifyLast]
  | cons b l' => simp [modifyLast]

theorem modifyLast_id : ∀ l : List TaskInstance, modifyLast (fun x => x) l = l
  | [] => rfl
  | [x] => rfl
  | x :: y :: rest => by
    show x :: modifyLast (fun x => x) (y :: rest) = x :: (y :: rest)
    rw [modifyLast_id (y :: rest)]

theorem modifyLast_comp (f g : TaskInstance → TaskInstance) :
    ∀ l : List TaskInstance, modifyLast g (modifyLast f l) = modifyLast (fun x => g (f x)) l := by
  intro l
  induction l with
  | nil => rfl
  | cons a l ih =>
    cases l with
    | nil => rfl
    | cons b l' =>
      rw [modifyLast_cons f a (b :: l') (by simp),
        modifyLast_cons g a _ (modifyLast_ne_nil f b l'),
        modifyLast_cons (fun x => g (f x)) a (b :: l') (by simp), ih]

theorem lookupTasks_setTasks_self (l : List (String × List TaskInstance)) (k : String)
    (v : List TaskInstance) : lookupTasks (setTasks l k v) k = some v := by
  induction l with
  | nil => simp [setTasks, lookupTasks]
  | cons hd tl ih =>
    obtain ⟨k', v'⟩ := hd
    by_cases h : k' == k
    · simp [setTasks, lookupTasks, h]
    · simp [setTasks, lookupTasks, h, ih]

theorem taskList_tasksModifyLast (md : Metadata) (k : String)
    (f : TaskInstance → TaskInstance) :
    (md.tasksModifyLast k f).taskList k = modifyLast f (md.taskList k) := by
  simp [Metadata.tasksModifyLast, Metadata.taskList, lookupTasks_setTasks_self]

theorem taskList_tasksPush (md : Metadata) (k : String) (inst : TaskInstance) :
    (md.tasksPush k inst).taskList k = md.taskList k ++ [inst] := by
  simp [Metadata.tasksPush, Metadata.taskList, lookupTasks_setTasks_self]

theorem getName_arrayFree (v : Bool) (a : InvokeArg) (name : String) (i : Nat)
    (h : actualArrayFree a = true) : getName v a name i = (name, []) := by
  rcases a with ⟨shape, e, q⟩
  cases shape with
  | declRef n ty =>
    simp only [actualArrayFree, Option.isNone_iff_eq_none] at h
    cases v
    · rfl
    · simp [getName, h]
  | opCall b idx => cases v <;> rfl
  | strLit s => cases v <;> rfl
  | otherExpr c => cases v <;> rfl

theorem modifyLast_append_singleton (f : TaskInstance → TaskInstance) :
    ∀ (l : List TaskInstance) (x : TaskInstance), modifyLast f (l ++ [x]) = l ++ [f x] := by
  intro l x
  induction l with
  | nil => rfl
  | cons a l ih =>
    cases l with
    | nil => rfl
    | cons b l' =>
      show a :: modifyLast f ((b :: l') ++ [x]) = a :: ((b :: l') ++ [f x])
      rw [ih]

theorem modifyLast_append_pair (f : TaskInstance → TaskInstance)
    (l : List TaskInstance) (a b : TaskInstance) :
    modifyLast f (l ++ [a, b]) = l ++ [a, f b] := by
  have h := modifyLast_append_singleton f (l ++ [a]) b
  simpa using h

theorem c4Diags_zero (M : Nat) : c4Diags M 0 = [] := rfl

theorem c4Diags_succ (M n : Nat) :
    c4Diags M (n + 1) = c4Diags M n ++
      (if M ≤ n then [Diag.vectorIndexWraparound n "x" (n % M)] else []) := by
  simp only [c4Diags, List.range_succ, List.filterMap_append]
  congr 1
  by_cases h : M ≤ n
  · simp [h, List.filterMap_cons]
  · simp [h, List.filterMap_cons]

/-- One replica of the vectorized `c4Invoke` appends one instance bound to
array slot `n % M` and emits the wraparound remark exactly when `M ≤ n`. -/
theorem c4_replica (N M n : Nat) :
    processArgsFrom c4Env (c4Invoke N M) n 0 (c4Invoke N M).args (c4State M n) =
      c4State M (n + 1) := by
  rcases n with _ | m
  · simp [processArgsFrom, processInvokeArg, InvokeArg.recognized, InvokeArg.argName,
      c4Env, c4Invoke, c4State, paramFor, registerArg, getName, arrayArgLength,
      Metadata.tasksPush, Metadata.tasksModifyLast, Metadata.taskList,
      lookupTasks, setTasks, setArg, modifyLast, c4Diags_zero, c4Diags_succ, c4Inst,
      List.range_succ]
  · simp [processArgsFrom, processInvokeArg, InvokeArg.recognized, InvokeArg.argName,
      c4Env, c4Invoke, c4State, paramFor, registerArg, getName, arrayArgLength,
      Metadata.tasksPush, Metadata.tasksModifyLast, Metadata.taskList,
      lookupTasks, setTasks, setArg, modifyLast_append_pair, c4Diags_succ, c4Inst,
      List.range_succ]

/-- The replica loop of `c4Invoke` reaches `c4State M n` after `n` replicas. -/
theorem c4_fold (N M : Nat) :
    ∀ n, (List.range n).foldl
        (fun s iVec => processArgsFrom c4Env (c4Invoke N M) iVec 0 (c4Invoke N M).args s)
        (c4State M 0) = c4State M n := by
  intro n
  induction n with
  | zero => rfl
  | succ m ih =>
    rw [List.range_succ, List.foldl_append, ih]
    exact c4_replica N M m

theorem lookupFifo_eq_none (l : List (String × FifoEntry)) (key : String)
    (h : ∀ p ∈ l, p.1 ≠ key) : lookupFifo l key = none := by
  induction l with
  | nil => rfl
  | cons hd tl ih =>
    have hne : hd.1 ≠ key := h hd (List.mem_cons_self _ _)
    obtain ⟨k', v'⟩ := hd
    simp only [lookupFifo]
    rw [if_neg (by simpa using hne)]
    exact ih fun p hp => h p (List.mem_cons_of_mem _ hp)

/-- Every diagnostic produced by the per-entry validation names the entry. -/
theorem validateFifoEntry_fifoName (decls : List String) (n : String) (e : FifoEntry) :
    ∀ d ∈ (validateFifoEntry decls n e).2, d.fifoName = some n := by
  intro d hd
  simp only [validateFifoEntry] at hd
  split at hd
  · simp only [List.mem_singleton] at hd
    subst hd
    rfl
  · split at hd
    · simp only [List.mem_singleton] at hd
      subst hd
      split <;> rfl
    · simp at hd

/-- The validation loop only ever keeps entries of its input. -/
theorem validateFifos_mem (decls : List String) :
    ∀ (l : List (String × FifoEntry)) (p : String × FifoEntry),
      p ∈ (validateFifos decls l).1 → p ∈ l := by
  intro l
  induction l with
  | nil => intro p hp; simp [validateFifos] at hp
  | cons hd tl ih =>
    intro p hp
    obtain ⟨n, e⟩ := hd
    simp only [validateFifos, List.mem_append] at hp
    rcases hp with hp | hp
    · split at hp
      · simp only [List.mem_singleton] at hp
        exact hp ▸ List.mem_cons_self _ _
      · simp at hp
    · exact List.mem_cons_of_mem _ (ih p hp)

/-- Every diagnostic of the validation loop names some entry of its input. -/
theorem validateFifos_fifoName (decls : List String) :
    ∀ (l : List (String × FifoEntry)) (d : Diag),
      d ∈ (validateFifos decls l).2 → ∃ p ∈ l, d.fifoName = some p.1 := by
  intro l
  induction l with
  | nil => intro d hd; simp [validateFifos] at hd
  | cons hd tl ih =>
    intro d hmem
    obtain ⟨n, e⟩ := hd
    simp only [validateFifos, List.mem_append] at hmem
    rcases hmem with hmem | hmem
    · exact ⟨(n, e), List.mem_cons_self _ _, validateFifoEntry_fifoName decls n e d hmem⟩
    · obtain ⟨p, hp, hname⟩ := ih d hmem
      exact ⟨p, List.mem_cons_of_mem _ hp, hname⟩

/-! ## Claim theorems -/

/-- Claim C1, counterexample: the claim quantifies over every channel
retained in the fifos map of a diagnostic-free task, but a channel named by
a stream parameter of the task itself (here `p`, consumed by `Leaf` and not
locally declared) is retained with a `consumed_by` edge and no `produced_by`
edge while no diagnostic at all is emitted — the dangling-stream check at
lines 630-643 runs only for locally declared fifos. -/
theorem c1_counterexample :
    (processUpperLevelTask c1Env [⟨"p", .istream, 0, "", ""⟩] [] [c1Invoke]).2 = [] ∧
    lookupFifo (processUpperLevelTask c1Env [⟨"p", .istream, 0, "", ""⟩] [] [c1Invoke]).1.fifos "p" =
      some { depth := none, produced_by := none, consumed_by := some ("Leaf", 0) } := by
  decide

/-- Claim C8, counterexample: the access mode is chosen only between
`WriteOnly` (const element type) and `ReadWrite` (non-const element type);
`write_device` is hard-coded `true` at line 724, so `ReadOnly` is produced
for neither value of the const-qualification, refuting "each of the three
modes is produced". -/
theorem c8_counterexample :
    frtDirection true = "WriteOnly" ∧ frtDirection false = "ReadWrite" ∧
    frtDirection true ≠ "ReadOnly" ∧ frtDirection false ≠ "ReadOnly" := by
  decide

/-- Claim C8, amended: for every mmap/async-mmap parameter, the emitted host
glue selects the buffer access mode as a function of the const-qualification
of the element type, choosing only between write-only (const) and
read-write (non-const); read-only is never selected. -/
theorem c8_amended :
    ∀ elemTypeIsConst : Bool,
      frtDirection elemTypeIsConst =
        if elemTypeIsConst then "WriteOnly" else "ReadWrite" := by
  decide

/-- Claim C3, counterexample: explicit naming is enabled (`has_name`) and the
invoke's last runtime argument is the string literal `"last"`, yet the
instance's display name is taken from the literal `"first"` at position 1
(immediately after the callee reference, line 595: `i == 1 && has_name`),
and processing the final argument emits the `unexpected argument` error
instead of setting the name. -/
theorem c3_counterexample :
    (processUpperLevelTask c3Env [] [] [c3Invoke]).1.tasks =
      [("T", [{ step := 0, name := some "first", args := [] }])] ∧
    (processUpperLevelTask c3Env [] [] [c3Invoke]).2 = [Diag.unexpectedArgument 0 2] := by
  decide

/-- Claim C3, amended: when explicit naming is enabled, the instance display
name is the string literal supplied at runtime-argument position 1, i.e.
immediately after the callee reference (not the last runtime argument);
processing that literal only sets the display name of the most recently
created instance — the fifos object is untouched, so no channel binding is
created, and no diagnostic is emitted. -/
theorem c3_amended (env : TaskEnv) (inv : InvokeInfo) (iVec : Nat) (str : String)
    (s : InvokeState) (h : inv.hasName = true) :
    processInvokeArg env inv iVec 1 ⟨.strLit str, none, false⟩ s =
      { s with
        md := s.md.tasksModifyLast s.taskName
          (fun inst => { inst with name := some str }) } ∧
    (processInvokeArg env inv iVec 1 ⟨.strLit str, none, false⟩ s).md.fifos = s.md.fifos ∧
    (processInvokeArg env inv iVec 1 ⟨.strLit str, none, false⟩ s).diags = s.diags := by
  refine ⟨?_, ?_, ?_⟩ <;>
    simp [processInvokeArg, InvokeArg.recognized, h, Metadata.tasksModifyLast]

/-- Witness for `c3_amended` at a concrete input. -/
theorem c3_amended_witness :
    c3Invoke.hasName = true ∧
    (processInvokeArg c3Env c3Invoke 0 1 ⟨.strLit "first", none, false⟩
        { taskName := "T", callee := some [], md := { tasks := [("T", [{ step := 0 }])] },
          diags := [] } =
      { taskName := "T", callee := some [],
        md := Metadata.tasksModifyLast { tasks := [("T", [{ step := 0 }])] } "T"
          (fun inst => { inst with name := some "first" }),
        diags := [] }) :=
  ⟨rfl,
   (c3_amended c3Env c3Invoke 0 "first"
     { taskName := "T", callee := some [], md := { tasks := [("T", [{ step := 0 }])] },
       diags := [] } rfl).1⟩

/-- Claim C7: for a top-level task with parameters
`(mmap<float> a, int n, ostream<int> o)` the ports list has exactly two
entries — `a` with category `mmap` and `n` with category `scalar`; the
stream parameter `o` contributes no ports entry, and once connected to an
instance it appears as a fifos entry. -/
theorem c7_theorem :
    (processUpperLevelTask c7Env c7Params [] [c7Invoke]).1.ports =
      [⟨"a", "mmap", 32, "float*"⟩, ⟨"n", "scalar", 32, "int"⟩] ∧
    lookupFifo (processUpperLevelTask c7Env c7Params [] [c7Invoke]).1.fifos "o" =
      some { depth := none, produced_by := some ("K", 0), consumed_by := none } := by
  decide

/-- Claim C9: when an input-stream (resp. output-stream) binding is
registered for a channel that already has a `consumed_by` (resp.
`produced_by`) edge, the duplicate-edge error is emitted and the edge is
then overwritten with the `(task_name, ordinal)` of the instance being
registered (the newest instance of the current task), so the metadata is
not left unchanged on this error. -/
theorem c9_theorem (s : InvokeState) (arg : String) (prev : String × Nat) :
    ((s.md.fifoGet arg).consumed_by = some prev →
      (registerConsumer s arg).diags = s.diags ++ [Diag.consumedMoreThanOnce arg] ∧
      ((registerConsumer s arg).md.fifoGet arg).consumed_by =
        some (s.taskName, (s.md.taskList s.taskName).length - 1)) ∧
    ((s.md.fifoGet arg).produced_by = some prev →
      (registerProducer s arg).diags = s.diags ++ [Diag.producedMoreThanOnce arg] ∧
      ((registerProducer s arg).md.fifoGet arg).produced_by =
        some (s.taskName, (s.md.taskList s.taskName).length - 1)) := by
  constructor
  · intro h
    constructor
    · simp [registerConsumer, h]
    · simp [registerConsumer, Metadata.fifoGet_fifoSet]
  · intro h
    constructor
    · simp [registerProducer, h]
    · simp [registerProducer, Metadata.fifoGet_fifoSet]

/-- Witness for `c9_theorem`: channel `c` already carries both edges
`("P", 0)`; re-registering from task `N` (two instances) emits both
duplicate errors and overwrites both edges with `("N", 1)`. -/
theorem c9_witness :
    ((registerConsumer c9State "c").diags = [Diag.consumedMoreThanOnce "c"] ∧
      ((registerConsumer c9State "c").md.fifoGet "c").consumed_by = some ("N", 1)) ∧
    ((registerProducer c9State "c").diags = [Diag.producedMoreThanOnce "c"] ∧
      ((registerProducer c9State "c").md.fifoGet "c").produced_by = some ("N", 1)) :=
  ⟨(c9_theorem c9State "c" ("P", 0)).1 (by decide),
   (c9_theorem c9State "c" ("P", 0)).2 (by decide)⟩

/-- Claim C10: for `N ≥ 1` and `1 ≤ i < 2^64`, `round_up_div<N>(i)` is the
ceiling of `i / N`, and — whenever the product does not exceed the
`uint64_t` range — `round_up<N>(i)` is the smallest multiple of `N` that is
`≥ i`.  The final conjunct exhibits the unsigned wraparound at `i = 0`
(`(0 - 1) / 2 + 1 = 2^63`, not the true ceiling `0`), which is why the
precondition `i ≥ 1` is required. -/
theorem c10_theorem (N i : Nat) (hN : 1 ≤ N) (hi : 1 ≤ i) (hlt : i < 2 ^ 64) :
    round_up_div N i = (i + N - 1) / N ∧
    (N * ((i + N - 1) / N) < 2 ^ 64 →
      round_up N i = N * ((i + N - 1) / N) ∧
      i ≤ round_up N i ∧ N ∣ round_up N i ∧
      ∀ m, N ∣ m → i ≤ m → round_up N i ≤ m) ∧
    round_up_div 2 0 = 2 ^ 63 := by
  have hU : U64 = 2 ^ 64 := rfl
  have h2 : (i + U64 - 1) % U64 = i - 1 := by
    have h1 : i + U64 - 1 = (i - 1) + U64 := by omega
    rw [h1, Nat.add_mod_right]
    exact Nat.mod_eq_of_lt (by omega)
  have hceil : (i - 1) / N + 1 = (i + N - 1) / N := by
    have hsub : i + N - 1 = (i - 1) + N := by omega
    rw [hsub, Nat.add_div_right _ (by omega : 0 < N)]
  have hsmall : (i - 1) / N + 1 < U64 := by
    have := Nat.div_le_self (i - 1) N
    omega
  have hwrap : round_up_div 2 0 = 2 ^ 63 := by
    show u64 (u64 (0 + U64 - 1) / 2 + 1) = 2 ^ 63
    norm_num [u64, U64]
  have hdiv : round_up_div N i = (i + N - 1) / N := by
    simp only [round_up_div, u64, h2]
    rw [Nat.mod_eq_of_lt hsmall, hceil]
  refine ⟨hdiv, ?_, hwrap⟩
  intro hov
  have hlt2 : (i + N - 1) / N * N < U64 := by
    rw [hU, Nat.mul_comm]
    exact hov
  have hmul : round_up N i = N * ((i + N - 1) / N) := by
    simp only [round_up, u64, h2]
    rw [Nat.mod_eq_of_lt hsmall, hceil, Nat.mod_eq_of_lt hlt2, Nat.mul_comm]
  have hle : i ≤ N * ((i + N - 1) / N) := by
    have hmod := Nat.div_add_mod (i + N - 1) N
    have hr : (i + N - 1) % N < N := Nat.mod_lt _ (by omega)
    omega
  refine ⟨hmul, hmul ▸ hle, hmul ▸ Dvd.intro ((i + N - 1) / N) rfl, ?_⟩
  intro m hdvd hm
  obtain ⟨k, hk⟩ := hdvd
  have hqk : (i + N - 1) / N ≤ k := by
    have step1 : (i + N - 1) / N ≤ (N * k + (N - 1)) / N :=
      Nat.div_le_div_right (by omega)
    have step2 : (N * k + (N - 1)) / N = k + (N - 1) / N :=
      Nat.mul_add_div (by omega) k (N - 1)
    have step3 : (N - 1) / N = 0 := Nat.div_eq_of_lt (by omega)
    omega
  calc round_up N i = N * ((i + N - 1) / N) := hmul
    _ ≤ N * k := mul_le_mul_left' hqk N
    _ = m := hk.symm

/-- If the validation loop emitted no diagnostic, every kept entry whose
channel is locally declared carries both edges. -/
theorem validateFifos_nil_diags (declNames : List String) :
    ∀ fifos : List (String × FifoEntry),
      (validateFifos declNames fifos).2 = [] →
      ∀ n e, (n, e) ∈ (validateFifos declNames fifos).1 →
        declNames.contains n = true →
        e.produced_by.isSome = true ∧ e.consumed_by.isSome = true := by
  intro fifos
  induction fifos with
  | nil => intro _ n e hmem _; simp [validateFifos] at hmem
  | cons hd tl ih =>
    intro hds n e hmem hdecl
    obtain ⟨n0, e0⟩ := hd
    simp only [validateFifos, List.append_eq_nil] at hds
    obtain ⟨hd1, hd2⟩ := hds
    simp only [validateFifos, List.mem_append] at hmem
    rcases hmem with hmem | hmem
    · split at hmem
      case isTrue hkeep =>
        simp only [List.mem_singleton] at hmem
        obtain ⟨rfl, rfl⟩ : n = n0 ∧ e = e0 := by simpa [Prod.ext_iff] using hmem
        have hdecl' : n ∈ declNames := by simpa using hdecl
        by_cases hc : e.consumed_by.isSome = true <;>
          by_cases hp : e.produced_by.isSome = true
        · exact ⟨hp, hc⟩
        · exfalso
          rw [show validateFifoEntry declNames n e =
                (true, [.consumedNotProducedStream n]) by
              simp [validateFifoEntry, hc, hp, hdecl']] at hd1
          cases hd1
        · exfalso
          rw [show validateFifoEntry declNames n e =
                (true, [.producedNotConsumedStream n]) by
              simp [validateFifoEntry, hc, hp, hdecl']] at hd1
          cases hd1
        · exfalso
          rw [show validateFifoEntry declNames n e = (false, [.unusedStream n]) by
              simp [validateFifoEntry, hc, hp]] at hd1
          cases hd1
      case isFalse => cases hmem
    · exact ih hd2 n e hmem hdecl

/-- Claim C1, amended: for every diagnostic-free upper-level task, every
channel retained in the fifos map that is locally declared in the task (a
`ChannelDecl`) has exactly one `produced_by` and exactly one `consumed_by`
entry (each edge is a single json member, so a channel never holds more than
one of either — re-registration overwrites).  Channels named only by the
task's own stream parameters may remain with a single edge
(`c1_counterexample`). -/
theorem c1_amended (env : TaskEnv) (params : List ParamInfo)
    (decls : List StreamDecl) (invokes : List InvokeInfo)
    (h : (processUpperLevelTask env params decls invokes).2 = []) :
    ∀ n e, (n, e) ∈ (processUpperLevelTask env params decls invokes).1.fifos →
      (streamDeclNames decls).contains n = true →
      e.produced_by.isSome = true ∧ e.consumed_by.isSome = true := by
  intro n e hmem hdecl
  simp only [processUpperLevelTask] at h hmem
  exact validateFifos_nil_diags _ _ (List.append_eq_nil.mp h).2 n e hmem hdecl

/-- Witness for `c1_amended`: a task declaring channel `c`, produced by `P`
and consumed by `C`, is diagnostic-free and retains `c` with both edges. -/
theorem c1_amended_witness :
    (processUpperLevelTask c1wEnv [] [⟨"c", 2, none⟩] c1wInvokes).2 = [] ∧
    (({ depth := some 2, produced_by := some ("P", 0),
        consumed_by := some ("C", 0) } : FifoEntry).produced_by.isSome = true ∧
     ({ depth := some 2, produced_by := some ("P", 0),
        consumed_by := some ("C", 0) } : FifoEntry).consumed_by.isSome = true) :=
  ⟨by decide,
   c1_amended c1wEnv [] [⟨"c", 2, none⟩] c1wInvokes (by decide) "c"
     { depth := some 2, produced_by := some ("P", 0), consumed_by := some ("C", 0) }
     (by decide) (by decide)⟩

/-- Claim C6: at end-of-task validation, for every fifos entry whose channel
is declared in the task (`declNames.contains name`): with neither edge the
`unused stream` warning is emitted and the channel is dropped from the
document; with exactly one edge the corresponding dangling-stream error
(`consumed but not produced` / `produced but not consumed`) naming the
channel is emitted (and the entry kept); with both edges the entry is
retained and validation emits no diagnostic naming it. -/
theorem c6_theorem (declNames : List String) (fifos : List (String × FifoEntry))
    (name : String) (e : FifoEntry)
    (hmem : (name, e) ∈ fifos)
    (hdecl : declNames.contains name = true)
    (hnodup : (fifos.map Prod.fst).Nodup) :
    ((e.consumed_by = none ∧ e.produced_by = none) →
        Diag.unusedStream name ∈ (validateFifos declNames fifos).2 ∧
        lookupFifo (validateFifos declNames fifos).1 name = none) ∧
    ((e.consumed_by.isSome = true ∧ e.produced_by = none) →
        Diag.consumedNotProducedStream name ∈ (validateFifos declNames fifos).2 ∧
        (name, e) ∈ (validateFifos declNames fifos).1) ∧
    ((e.consumed_by = none ∧ e.produced_by.isSome = true) →
        Diag.producedNotConsumedStream name ∈ (validateFifos declNames fifos).2 ∧
        (name, e) ∈ (validateFifos declNames fifos).1) ∧
    ((e.consumed_by.isSome = true ∧ e.produced_by.isSome = true) →
        (name, e) ∈ (validateFifos declNames fifos).1 ∧
        ∀ d ∈ (validateFifos declNames fifos).2, d.fifoName ≠ some name) := by
  induction fifos with
  | nil => cases hmem
  | cons hd tl ih =>
    obtain ⟨n0, e0⟩ := hd
    rcases List.mem_cons.mp hmem with heq | htl
    · obtain ⟨rfl, rfl⟩ : name = n0 ∧ e = e0 := by
        simpa [Prod.ext_iff] using heq
      have hkeys : name ∉ tl.map Prod.fst := by
        simpa using (List.nodup_cons.mp hnodup).1
      refine ⟨?_, ?_, ?_, ?_⟩
      · rintro ⟨hc, hp⟩
        have hentry : validateFifoEntry declNames name e = (false, [.unusedStream name]) := by
          simp [validateFifoEntry, hc, hp]
        constructor
        · simp [validateFifos, hentry]
        · simp only [validateFifos, hentry, List.nil_append]
          refine lookupFifo_eq_none _ _ fun p hp' hcontra => ?_
          exact hkeys (hcontra ▸ List.mem_map_of_mem Prod.fst (validateFifos_mem declNames tl p hp'))
      · rintro ⟨hc, hp⟩
        have hdecl' : name ∈ declNames := by simpa using hdecl
        have hentry : validateFifoEntry declNames name e =
            (true, [.consumedNotProducedStream name]) := by
          simp [validateFifoEntry, hc, hp, hdecl']
        constructor
        · simp [validateFifos, hentry]
        · simp [validateFifos, hentry]
      · rintro ⟨hc, hp⟩
        have hdecl' : name ∈ declNames := by simpa using hdecl
        have hentry : validateFifoEntry declNames name e =
            (true, [.producedNotConsumedStream name]) := by
          simp [validateFifoEntry, hc, hp, hdecl']
        constructor
        · simp [validateFifos, hentry]
        · simp [validateFifos, hentry]
      · rintro ⟨hc, hp⟩
        have hentry : validateFifoEntry declNames name e = (true, []) := by
          simp [validateFifoEntry, hc, hp]
        constructor
        · simp [validateFifos, hentry]
        · intro d hd
          simp only [validateFifos, hentry, List.nil_append] at hd
          obtain ⟨p, hp', hname⟩ := validateFifos_fifoName declNames tl d hd
          rw [hname]
          intro hcontra
          have : p.1 = name := by simpa using hcontra
          exact hkeys (this ▸ List.mem_map_of_mem Prod.fst hp')
    · have hn0 : n0 ∉ tl.map Prod.fst := by
        simpa using (List.nodup_cons.mp hnodup).1
      have hne : n0 ≠ name := fun h =>
        hn0 (h ▸ List.mem_map_of_mem Prod.fst htl)
      have IH := ih htl (List.nodup_cons.mp hnodup).2
      have hlift1 : ∀ d, d ∈ (validateFifos declNames tl).2 →
          d ∈ (validateFifos declNames ((n0, e0) :: tl)).2 := by
        intro d hd
        simp only [validateFifos]
        exact List.mem_append_right _ hd
      have hlift2 : (name, e) ∈ (validateFifos declNames tl).1 →
          (name, e) ∈ (validateFifos declNames ((n0, e0) :: tl)).1 := by
        intro h
        simp only [validateFifos]
        exact List.mem_append_right _ h
      have hlook : lookupFifo (validateFifos declNames tl).1 name = none →
          lookupFifo (validateFifos declNames ((n0, e0) :: tl)).1 name = none := by
        intro h
        simp only [validateFifos]
        rcases (validateFifoEntry declNames n0 e0).1 with _ | _
        · simpa using h
        · simpa [lookupFifo, hne] using h
      refine ⟨?_, ?_, ?_, ?_⟩
      · intro h
        exact ⟨hlift1 _ (IH.1 h).1, hlook (IH.1 h).2⟩
      · intro h
        exact ⟨hlift1 _ (IH.2.1 h).1, hlift2 (IH.2.1 h).2⟩
      · intro h
        exact ⟨hlift1 _ (IH.2.2.1 h).1, hlift2 (IH.2.2.1 h).2⟩
      · intro h
        refine ⟨hlift2 (IH.2.2.2 h).1, ?_⟩
        intro d hd
        simp only [validateFifos, List.mem_append] at hd
        rcases hd with hd | hd
        · have := validateFifoEntry_fifoName declNames n0 e0 d hd
          rw [this]
          simpa using hne
        · exact (IH.2.2.2 h).2 d hd

/-- Witness for `c6_theorem`: a single declared channel `a` with both
edges set is retained with no diagnostic. -/
theorem c6_witness :
    ("a", c6wEntry) ∈ (validateFifos c6wDecls c6wFifos).1 ∧
    ∀ d ∈ (validateFifos c6wDecls c6wFifos).2, d.fifoName ≠ some "a" :=
  (c6_theorem c6wDecls c6wFifos "a" c6wEntry
    (by decide) (by decide) (by decide)).2.2.2 ⟨by decide, by decide⟩

/-- Full run of the vectorized `c4Invoke` task. -/
theorem c4_run (N M : Nat) :
    processUpperLevelTask c4Env [] [] [c4Invoke N M] =
      ({ ports := [], fifos := [], tasks := (c4State M N).md.tasks }, c4Diags M N) := by
  have hstate : processInvoke c4Env (c4Invoke N M)
      { md := { ports := derivePorts [], fifos := [], tasks := [] }, diags := [] } =
      c4State M N := by
    show (List.range N).foldl
        (fun s iVec => processArgsFrom c4Env (c4Invoke N M) iVec 0 (c4Invoke N M).args s)
        (c4State M 0) = c4State M N
    exact c4_fold N M N
  simp only [processUpperLevelTask, processInvokes, List.foldl_cons, List.foldl_nil,
    declareFifos, streamDeclNames, hstate]
  show ({ (c4State M N).md with fifos := (validateFifos [] (c4State M N).md.fifos).1 },
      c4Diags M N ++ (validateFifos [] (c4State M N).md.fifos).2) = _
  simp [c4State, validateFifos]

/-- Claim C4: a vectorized invocation (vector length `N`) whose actual
argument is an array-typed async-mmap variable of length `M` binds replica
`i_vec` to array slot `i_vec mod M` (see `c4Inst`); the advisory (non-error)
wraparound remark is emitted exactly for the replicas with `i_vec ≥ M`, and
binding still succeeds for them.  The second conjunct checks the concrete
stream-array case `N = 5`, `M = 3`: slots `{0,1,2,0,1}` with wraparound
remarks for replicas 3 and 4 only. -/
theorem c4_theorem (N M : Nat) (hM : 0 < M) :
    ((processUpperLevelTask c4Env [] [] [c4Invoke N M]).1.taskList "A" =
        (List.range N).map (c4Inst M) ∧
     (processUpperLevelTask c4Env [] [] [c4Invoke N M]).2 =
        (List.range N).filterMap
          (fun j => if M ≤ j then some (Diag.vectorIndexWraparound j "x" (j % M)) else none) ∧
     ∀ d ∈ (processUpperLevelTask c4Env [] [] [c4Invoke N M]).2, d.isError = false) ∧
    (((processUpperLevelTask c4sEnv [] [⟨"x", 2, some 3⟩] [c4sInvoke]).1.taskList "C").map
        (fun inst => inst.args) =
      [[("q", ⟨"istream", "x[0]"⟩)], [("q", ⟨"istream", "x[1]"⟩)],
       [("q", ⟨"istream", "x[2]"⟩)], [("q", ⟨"istream", "x[0]"⟩)],
       [("q", ⟨"istream", "x[1]"⟩)]] ∧
     (processUpperLevelTask c4sEnv [] [⟨"x", 2, some 3⟩]
         [c4sInvoke]).2.filter Diag.isWraparound =
      [Diag.vectorIndexWraparound 3 "x" 0, Diag.vectorIndexWraparound 4 "x" 1]) := by
  refine ⟨⟨?_, ?_, ?_⟩, by decide, by decide⟩
  · rw [c4_run]
    rcases N with _ | m
    · rfl
    · simp [Metadata.taskList, c4State, lookupTasks]
  · rw [c4_run]
    rfl
  · rw [c4_run]
    intro d hd
    simp only [c4Diags, List.mem_filterMap] at hd
    obtain ⟨j, _, hj⟩ := hd
    split at hj
    · cases hj
      rfl
    · cases hj

/-- Witness for `c4_theorem` at `N = 2`, `M = 1`. -/
theorem c4_witness :
    (processUpperLevelTask c4Env [] [] [c4Invoke 2 1]).1.taskList "A" =
        (List.range 2).map (c4Inst 1) ∧
    (processUpperLevelTask c4Env [] [] [c4Invoke 2 1]).2 =
        (List.range 2).filterMap
          (fun j => if 1 ≤ j then some (Diag.vectorIndexWraparound j "x" (j % 1)) else none) ∧
    ∀ d ∈ (processUpperLevelTask c4Env [] [] [c4Invoke 2 1]).2, d.isError = false :=
  (c4_theorem 2 1 (by decide)).1

/-- Claim C2: declaring a channel `c` (any name, any depth `d`) and invoking
two instances that both bind an output-stream parameter to `c` yields the
`ChannelProducedTwice` error (`tapa::stream produced more than once`) naming
`c`, and no metadata document is finalized for the task (the finalization
gate is modelled from the spec, see `finalizeMetadata`). -/
theorem c2_theorem (c : String) (d : Nat) :
    Diag.producedMoreThanOnce c ∈
      (processUpperLevelTask c2Env [] [⟨c, d, none⟩] [c2Invoke c, c2Invoke c]).2 ∧
    finalizeMetadata
      (processUpperLevelTask c2Env [] [⟨c, d, none⟩] [c2Invoke c, c2Invoke c]).1
      (processUpperLevelTask c2Env [] [⟨c, d, none⟩] [c2Invoke c, c2Invoke c]).2 = none := by
  have hrun : processUpperLevelTask c2Env [] [⟨c, d, none⟩] [c2Invoke c, c2Invoke c] =
      ({ ports := [],
         fifos := [(c, { depth := some d, produced_by := some ("Producer", 1),
                         consumed_by := none })],
         tasks := [("Producer",
           [{ step := 0, args := [("out", ⟨"ostream", c⟩)] },
            { step := 0, args := [("out", ⟨"ostream", c⟩)] }])] },
       [Diag.producedMoreThanOnce c, Diag.producedNotConsumedStream c]) := by
    simp [processUpperLevelTask, derivePorts, declareFifos, streamDeclNames, processInvokes,
      processInvoke, processArgsFrom, processInvokeArg, InvokeArg.recognized, InvokeArg.argName,
      paramFor, registerProducer, registerArg, getName, c2Env, c2Invoke, Metadata.fifoGet,
      Metadata.fifoSet, Metadata.tasksPush, Metadata.tasksModifyLast, Metadata.taskList,
      lookupFifo, setFifo, lookupTasks, setTasks, lookupArg, setArg, modifyLast,
      validateFifos, validateFifoEntry, List.range_succ]
  rw [hrun]
  exact ⟨List.mem_cons_self _ _, rfl⟩

/-- Witness for `c10_theorem` at `N = 3`, `i = 7`. -/
theorem c10_witness :
    round_up_div 3 7 = (7 + 3 - 1) / 3 ∧
    (3 * ((7 + 3 - 1) / 3) < 2 ^ 64 →
      round_up 3 7 = 3 * ((7 + 3 - 1) / 3) ∧
      7 ≤ round_up 3 7 ∧ 3 ∣ round_up 3 7 ∧
      ∀ m, 3 ∣ m → 7 ≤ m → round_up 3 7 ≤ m) ∧
    round_up_div 2 0 = 2 ^ 63 :=
  c10_theorem 3 7 (by decide) (by decide) (by norm_num)

theorem registerArg_taskName (s : InvokeState) (cat arg port : String) :
    (registerArg s cat arg port).taskName = s.taskName := rfl

theorem registerArg_callee (s : InvokeState) (cat arg port : String) :
    (registerArg s cat arg port).callee = s.callee := rfl

theorem registerArg_taskList (s : InvokeState) (cat arg port : String) :
    (registerArg s cat arg port).md.taskList s.taskName =
      modifyLast (fun inst => { inst with args := setArg inst.args port ⟨cat, arg⟩ })
        (s.md.taskList s.taskName) :=
  taskList_tasksModifyLast _ _ _

theorem registerConsumer_taskName (s : InvokeState) (arg : String) :
    (registerConsumer s arg).taskName = s.taskName := rfl

theorem registerConsumer_callee (s : InvokeState) (arg : String) :
    (registerConsumer s arg).callee = s.callee := rfl

theorem registerConsumer_taskList (s : InvokeState) (arg k : String) :
    (registerConsumer s arg).md.taskList k = s.md.taskList k := rfl

theorem registerProducer_taskName (s : InvokeState) (arg : String) :
    (registerProducer s arg).taskName = s.taskName := rfl

theorem registerProducer_callee (s : InvokeState) (arg : String) :
    (registerProducer s arg).callee = s.callee := rfl

theorem registerProducer_taskList (s : InvokeState) (arg k : String) :
    (registerProducer s arg).md.taskList k = s.md.taskList k := rfl

theorem c5_arg_step (env : TaskEnv) (inv : InvokeInfo) (params : List (String × TapaType))
    (j i : Nat) (a : InvokeArg) (s : InvokeState)
    (hi : (i == 0) = false)
    (hcallee : s.callee = some params)
    (hsimple : c5SimpleAt inv params i a = true) :
    (processInvokeArg env inv j i a s).taskName = s.taskName ∧
    (processInvokeArg env inv j i a s).callee = s.callee ∧
    (processInvokeArg env inv j i a s).md.taskList s.taskName =
      modifyLast (c5ExtendOne inv params j i a) (s.md.taskList s.taskName) := by
  cases hrec : a.recognized with
  | false =>
    rcases hshape : a.shape with ⟨n, ty⟩ | ⟨b, idx⟩ | str | cn
    · exact absurd hrec (by simp [InvokeArg.recognized, hshape])
    · exact absurd hrec (by simp [InvokeArg.recognized, hshape])
    · by_cases hcond : (i == 1 && inv.hasName) = true
      · have he : c5ExtendOne inv params j i a =
            fun inst => { inst with name := some str } := by
          funext inst
          simp [c5ExtendOne, hrec, hshape, hcond]
        refine ⟨?_, ?_, ?_⟩ <;>
          simp [processInvokeArg, hrec, hshape, hcond, he, taskList_tasksModifyLast]
      · have he : c5ExtendOne inv params j i a = fun inst => inst := by
          funext inst
          simp [c5ExtendOne, hrec, hshape, hcond]
        refine ⟨?_, ?_, ?_⟩ <;>
          simp [processInvokeArg, hrec, hshape, hcond, he, modifyLast_id]
    · have he : c5ExtendOne inv params j i a = fun inst => inst := by
        funext inst
        simp [c5ExtendOne, hrec, hshape]
      refine ⟨?_, ?_, ?_⟩ <;>
        simp [processInvokeArg, hrec, hshape, he, modifyLast_id]
  | true =>
    rcases hpf : paramFor inv params i with _ | ⟨pn, pt⟩
    · have he : c5ExtendOne inv params j i a = fun inst => inst := by
        funext inst
        simp [c5ExtendOne, hrec, hpf]
      refine ⟨?_, ?_, ?_⟩ <;>
        simp [processInvokeArg, hrec, hi, hcallee, hpf, he, modifyLast_id]
    · have he : c5ExtendOne inv params j i a =
          fun inst => { inst with args := setArg inst.args pn (c5Entry j a pt) } := by
        funext inst
        simp [c5ExtendOne, hrec, hpf]
      have hsimp := hsimple
      simp only [c5SimpleAt, hrec, Bool.not_true, Bool.false_or, hpf, Bool.and_eq_true] at hsimp
      obtain ⟨haf, hsa⟩ := hsimp
      have hgn1 : getName inv.isVec a a.argName j = (a.argName, []) :=
        getName_arrayFree _ a _ j haf
      cases hseq : a.isSeq <;> cases pt <;>
        (simp_all [processInvokeArg, he, c5Entry, registerArg_taskName, registerArg_callee,
          registerArg_taskList, registerConsumer_taskName, registerConsumer_callee,
          registerConsumer_taskList, registerProducer_taskName, registerProducer_callee,
          registerProducer_taskList, isStreamArrayParam]) <;>
        exact taskList_tasksModifyLast _ _ _

theorem c5_args_tail (env : TaskEnv) (inv : InvokeInfo) (params : List (String × TapaType))
    (j : Nat) :
    ∀ (rest : List InvokeArg) (i : Nat) (s : InvokeState),
      (i == 0) = false → s.callee = some params → c5Check inv params i rest = true →
      (processArgsFrom env inv j i rest s).taskName = s.taskName ∧
      (processArgsFrom env inv j i rest s).callee = s.callee ∧
      (processArgsFrom env inv j i rest s).md.taskList s.taskName =
        modifyLast (c5ExtendInst inv params j i rest) (s.md.taskList s.taskName) := by
  intro rest
  induction rest with
  | nil =>
    intro i s hi hc hchk
    exact ⟨rfl, rfl, (modifyLast_id _).symm⟩
  | cons a rest ih =>
    intro i s hi hc hchk
    simp only [c5Check, Bool.and_eq_true] at hchk
    obtain ⟨hs1, hs2⟩ := hchk
    obtain ⟨ht, hcal, htl⟩ := c5_arg_step env inv params j i a s hi hc hs1
    have hi' : (i + 1 == 0) = false := rfl
    have hc' : (processInvokeArg env inv j i a s).callee = some params := by
      rw [hcal, hc]
    obtain ⟨ht', hcal', htl'⟩ :=
      ih (i + 1) (processInvokeArg env inv j i a s) hi' hc' hs2
    rw [ht] at ht' htl'
    rw [hcal] at hcal'
    refine ⟨?_, ?_, ?_⟩
    · show (processArgsFrom env inv j (i + 1) rest
        (processInvokeArg env inv j i a s)).taskName = s.taskName
      exact ht'
    · show (processArgsFrom env inv j (i + 1) rest
        (processInvokeArg env inv j i a s)).callee = s.callee
      exact hcal'
    · show (processArgsFrom env inv j (i + 1) rest
          (processInvokeArg env inv j i a s)).md.taskList s.taskName =
        modifyLast (c5ExtendInst inv params j i (a :: rest)) (s.md.taskList s.taskName)
      rw [htl', htl, modifyLast_comp]
      rfl

theorem lookupArg_setArg_self (l : List (String × ArgEntry)) (k : String) (e : ArgEntry) :
    lookupArg (setArg l k e) k = some e := by
  induction l with
  | nil => simp [setArg, lookupArg]
  | cons hd tl ih =>
    obtain ⟨a, b⟩ := hd
    by_cases h : a == k
    · simp [setArg, lookupArg, h]
    · simp [setArg, lookupArg, h, ih]

theorem lookupArg_setArg_ne (l : List (String × ArgEntry)) (k k' : String) (e : ArgEntry)
    (h : k' ≠ k) : lookupArg (setArg l k' e) k = lookupArg l k := by
  induction l with
  | nil => simp [setArg, lookupArg, h]
  | cons hd tl ih =>
    obtain ⟨a, b⟩ := hd
    by_cases hh : a == k'
    · have ha : a = k' := by simpa using hh
      subst ha
      simp [setArg, lookupArg, h]
    · simp [setArg, lookupArg, hh, ih]

theorem get?_fst_ne_of_nodup (params : List (String × TapaType))
    (hnodup : (params.map Prod.fst).Nodup) (m m' : Nat) (hmm : m ≠ m')
    (p p' : String × TapaType)
    (hm : params.get? m = some p) (hm' : params.get? m' = some p') : p'.1 ≠ p.1 := by
  intro heq
  have h1 : (params.map Prod.fst).get? m = some p.1 := by
    rw [List.get?_map, hm]
    rfl
  have h2 : (params.map Prod.fst).get? m' = some p.1 := by
    rw [List.get?_map, hm']
    simp [heq]
  have hlen : m < (params.map Prod.fst).length := by
    rw [List.length_map]
    have := List.get?_eq_some.mp hm
    exact this.1
  exact hmm (List.get?_inj hlen hnodup (h1.trans h2.symm))

theorem paramFor_fst_ne (inv : InvokeInfo) (params : List (String × TapaType))
    (hnodup : (params.map Prod.fst).Nodup) (i i' : Nat) (p p' : String × TapaType)
    (hlt : i < i')
    (hp : paramFor inv params i = some p) (hp' : paramFor inv params i' = some p') :
    p'.1 ≠ p.1 := by
  unfold paramFor at hp hp'
  by_cases hn : inv.hasName
  · rw [if_pos hn] at hp hp'
    split at hp
    · split at hp'
      · exact get?_fst_ne_of_nodup params hnodup (i - 2) (i' - 2) (by omega) p p' hp hp'
      · cases hp'
    · cases hp
  · rw [if_neg hn] at hp hp'
    split at hp
    · split at hp'
      · exact get?_fst_ne_of_nodup params hnodup (i - 1) (i' - 1) (by omega) p p' hp hp'
      · cases hp'
    · cases hp

theorem c5Extend_lookup_other (inv : InvokeInfo) (params : List (String × TapaType))
    (j : Nat) (pn : String) :
    ∀ (rest : List InvokeArg) (i : Nat) (inst : TaskInstance),
      (∀ i' p', i ≤ i' → paramFor inv params i' = some p' → p'.1 ≠ pn) →
      lookupArg (c5ExtendInst inv params j i rest inst).args pn = lookupArg inst.args pn := by
  intro rest
  induction rest with
  | nil => intro i inst _; rfl
  | cons a rest ih =>
    intro i inst h
    show lookupArg (c5ExtendInst inv params j (i + 1) rest
      (c5ExtendOne inv params j i a inst)).args pn = _
    rw [ih (i + 1) _ (fun i' p' hi' hp' => h i' p' (by omega) hp')]
    unfold c5ExtendOne
    split
    · rcases hpf : paramFor inv params i with _ | p
      · simp [hpf]
      · simp only [hpf]
        exact lookupArg_setArg_ne _ _ _ _ (h i p le_rfl hpf)
    · rcases hshape : a.shape with _ | _ | str | _ <;> simp
      split <;> rfl

theorem c5Extend_lookup (inv : InvokeInfo) (params : List (String × TapaType))
    (j : Nat) (hnodup : (params.map Prod.fst).Nodup) :
    ∀ (rest : List InvokeArg) (i : Nat) (inst : TaskInstance) (idx : Nat)
      (a : InvokeArg) (pn : String) (pt : TapaType),
      c5Check inv params i rest = true →
      rest.get? idx = some a → a.recognized = true →
      paramFor inv params (i + idx) = some (pn, pt) →
      lookupArg (c5ExtendInst inv params j i rest inst).args pn =
        some (c5Entry j a pt) := by
  intro rest
  induction rest with
  | nil =>
    intro i inst idx a pn pt _ hget _ _
    simp at hget
  | cons b rest ih =>
    intro i inst idx a pn pt hchk hget hrec hpf
    simp only [c5Check, Bool.and_eq_true] at hchk
    obtain ⟨hs1, hs2⟩ := hchk
    cases idx with
    | zero =>
      have hba : b = a := by simpa using hget
      subst hba
      rw [Nat.add_zero] at hpf
      show lookupArg (c5ExtendInst inv params j (i + 1) rest
        (c5ExtendOne inv params j i b inst)).args pn = _
      rw [c5Extend_lookup_other inv params j pn rest (i + 1) _
        (fun i' p' hi' hp' =>
          paramFor_fst_ne inv params hnodup i i' (pn, pt) p' (by omega) hpf hp')]
      unfold c5ExtendOne
      rw [if_pos hrec, hpf]
      exact lookupArg_setArg_self _ _ _
    | succ idx' =>
      have hpf' : paramFor inv params (i + 1 + idx') = some (pn, pt) := by
        have harith : i + 1 + idx' = i + (idx' + 1) := by omega
        rw [harith]
        exact hpf
      show lookupArg (c5ExtendInst inv params j (i + 1) rest
        (c5ExtendOne inv params j i b inst)).args pn = _
      exact ih (i + 1) _ idx' a pn pt hs2 (by simpa using hget) hrec hpf'

theorem c5_replica (env : TaskEnv) (inv : InvokeInfo) (cname : String) (cty : TapaType)
    (params : List (String × TapaType)) (rest : List InvokeArg)
    (hargs : inv.args = ⟨.declRef cname cty, none, false⟩ :: rest)
    (henv : env cname = some params)
    (hcheck : c5Check inv params 1 rest = true)
    (j : Nat) (s : InvokeState) :
    (processArgsFrom env inv j 0 inv.args s).taskName = cname ∧
    (processArgsFrom env inv j 0 inv.args s).callee = some params ∧
    (processArgsFrom env inv j 0 inv.args s).md.taskList cname =
      s.md.taskList cname ++ [c5ReplicaInst inv params j rest] := by
  rw [hargs]
  simp only [processArgsFrom]
  have h0 : processInvokeArg env inv j 0 ⟨.declRef cname cty, none, false⟩ s =
      { s with
        taskName := cname,
        md := s.md.tasksPush cname ({ step := inv.step } : TaskInstance),
        callee := env cname } := rfl
  rw [h0]
  set s1 : InvokeState :=
    { s with
      taskName := cname,
      md := s.md.tasksPush cname ({ step := inv.step } : TaskInstance),
      callee := env cname } with hs1
  have hc1 : s1.callee = some params := by rw [hs1]; exact henv
  obtain ⟨ht, hcal, htl⟩ := c5_args_tail env inv params j rest 1 s1 rfl hc1 hcheck
  have ht1 : s1.taskName = cname := rfl
  rw [ht1] at ht htl
  refine ⟨ht, by rw [hcal, hc1], ?_⟩
  rw [htl]
  have h2 : s1.md.taskList cname =
      s.md.taskList cname ++ [({ step := inv.step } : TaskInstance)] := by
    rw [hs1]
    exact taskList_tasksPush _ _ _
  rw [h2, modifyLast_append_singleton]
  rfl

theorem c5_fold (env : TaskEnv) (inv : InvokeInfo) (cname : String) (cty : TapaType)
    (params : List (String × TapaType)) (rest : List InvokeArg)
    (hargs : inv.args = ⟨.declRef cname cty, none, false⟩ :: rest)
    (henv : env cname = some params)
    (hcheck : c5Check inv params 1 rest = true) :
    ∀ (n : Nat) (s : InvokeState),
      ((List.range n).foldl
        (fun s iVec => processArgsFrom env inv iVec 0 inv.args s) s).md.taskList cname =
      s.md.taskList cname ++
        (List.range n).map (fun j => c5ReplicaInst inv params j rest) := by
  intro n
  induction n with
  | zero => intro s; simp
  | succ m ih =>
    intro s
    rw [List.range_succ, List.foldl_append, List.foldl_cons, List.foldl_nil]
    rw [(c5_replica env inv cname cty params rest hargs henv hcheck m _).2.2, ih s]
    simp [List.map_append, List.append_assoc]

/-- Claim C5: an invocation with vector length `N` appends exactly `N`
instances of the callee to the task's instance list — each instance's
ordinal is its (distinct) index `j` in that list — and, in the
simple-argument fragment (non-array actuals against non-array parameters),
replica `j`'s recorded binding for each port is `c5Entry j`: identical
across replicas for every non-`seq` argument, and equal to the replica
index (`64'd j`) for a `tapa::seq` argument. -/
theorem c5_theorem (env : TaskEnv) (inv : InvokeInfo) (cname : String) (cty : TapaType)
    (params : List (String × TapaType)) (rest : List InvokeArg)
    (hargs : inv.args = ⟨.declRef cname cty, none, false⟩ :: rest)
    (henv : env cname = some params)
    (hcheck : c5Check inv params 1 rest = true)
    (hnodup : (params.map Prod.fst).Nodup) :
    ((processUpperLevelTask env [] [] [inv]).1.taskList cname).length = inv.vecLength ∧
    (∀ j inst,
      ((processUpperLevelTask env [] [] [inv]).1.taskList cname).get? j = some inst →
      inst = c5ReplicaInst inv params j rest ∧
      ∀ idx a pn pt, rest.get? idx = some a → a.recognized = true →
        paramFor inv params (1 + idx) = some (pn, pt) →
        lookupArg inst.args pn = some (c5Entry j a pt)) ∧
    (∀ j k (a : InvokeArg) (pt : TapaType), a.isSeq = false →
      c5Entry j a pt = c5Entry k a pt) ∧
    (∀ j (a : InvokeArg), a.isSeq = true →
      c5Entry j a TapaType.scalar = ⟨"scalar", "64'd" ++ toString j⟩) := by
  have hrun : (processUpperLevelTask env [] [] [inv]).1.taskList cname =
      (List.range inv.vecLength).map (fun j => c5ReplicaInst inv params j rest) := by
    show ((List.range inv.vecLength).foldl
        (fun s iVec => processArgsFrom env inv iVec 0 inv.args s)
        { taskName := "", callee := none,
          md := { ports := derivePorts [], fifos := [], tasks := [] },
          diags := [] }).md.taskList cname = _
    rw [c5_fold env inv cname cty params rest hargs henv hcheck inv.vecLength _]
    rfl
  refine ⟨?_, ?_, ?_, ?_⟩
  · rw [hrun]
    simp
  · intro j inst hget
    rw [hrun, List.get?_map] at hget
    rcases hj : (List.range inv.vecLength).get? j with _ | v
    · rw [hj] at hget
      cases hget
    · rw [hj] at hget
      have hv : v = j := by
        obtain ⟨hlt, hgv⟩ := List.get?_eq_some.mp hj
        rw [List.get_range] at hgv
        exact hgv.symm
      subst hv
      have hinst : inst = c5ReplicaInst inv params v rest := by
        simpa using hget.symm
      subst hinst
      refine ⟨rfl, ?_⟩
      intro idx a pn pt hget' hrec hpf
      exact c5Extend_lookup inv params v hnodup rest 1 { step := inv.step } idx a pn pt
        hcheck hget' hrec hpf
  · intro j k a pt h
    cases pt <;> simp [c5Entry, h]
  · intro j a h
    simp [c5Entry, h]

/-- Witness for `c5_theorem`: `invoke<join, 2>(W, 7, seq())` where
`W(int x, int s)`. -/
theorem c5_witness :
    ((processUpperLevelTask c5wEnv [] [] [c5wInvoke]).1.taskList "W").length =
      c5wInvoke.vecLength ∧
    (∀ j inst,
      ((processUpperLevelTask c5wEnv [] [] [c5wInvoke]).1.taskList "W").get? j =
        some inst →
      inst = c5ReplicaInst c5wInvoke [("x", TapaType.scalar), ("s", TapaType.scalar)] j
          [⟨.otherExpr "IntegerLiteral", some 7, false⟩,
           ⟨.otherExpr "CXXConstructExpr", none, true⟩] ∧
      ∀ idx a pn pt,
        [(⟨.otherExpr "IntegerLiteral", some 7, false⟩ : InvokeArg),
         ⟨.otherExpr "CXXConstructExpr", none, true⟩].get? idx = some a →
        a.recognized = true →
        paramFor c5wInvoke [("x", TapaType.scalar), ("s", TapaType.scalar)] (1 + idx) =
          some (pn, pt) →
        lookupArg inst.args pn = some (c5Entry j a pt)) ∧
    (∀ j k (a : InvokeArg) (pt : TapaType), a.isSeq = false →
      c5Entry j a pt = c5Entry k a pt) ∧
    (∀ j (a : InvokeArg), a.isSeq = true →
      c5Entry j a TapaType.scalar = ⟨"scalar", "64'd" ++ toString j⟩) :=
  c5_theorem c5wEnv c5wInvoke "W" .scalar
    [("x", TapaType.scalar), ("s", TapaType.scalar)]
    [⟨.otherExpr "IntegerLiteral", some 7, false⟩,
     ⟨.otherExpr "CXXConstructExpr", none, true⟩]
    rfl rfl (by decide) (by decide)

end TapaSpec
